import Mathlib

/-!
Verification of the claude-token-monitor backend core.

This file gives a shallow embedding, in Lean 4, of the parts of the
backend that the specification's claims are about:

* src/backend/app/core/pricing.py       (model-name normalization, price
  lookup, cost computation)
* src/backend/app/core/data_processor.py (model aggregation, trend
  computation, date filling)
* src/backend/app/core/stats_reader.py  (daily-activity extraction from
  the parsed cache document)
* src/backend/app/core/file_watcher.py  (debounced event handling and the
  watcher start contract)
* src/backend/app/api/websocket.py      (broadcast fan-out and subscriber
  pruning)

Modelling conventions:
* Python float arithmetic is modelled with exact rationals.  Every
  floating-point fact proved below (the 10.5 USD scenario, the 2-decimal
  rounding counterexamples) involves only values and operations that are
  exact in IEEE double precision as well, so the rational model agrees
  with the float computation at every point used by a theorem.
* Python `dict` is modelled as an association list with last-write-wins
  semantics: a dict comprehension or insertion loop keeps, for each key,
  the value of the last item inserted, so lookup is `reverse.find?`.
* The `YYYY-MM-DD` date strings used by the data processor are modelled
  by their day ordinals (naturals).  `datetime.strptime`/`strftime` with
  that zero-padded format is a strictly monotone bijection between valid
  date strings and ordinals, `timedelta(days=1)` is `+ 1` on ordinals,
  and lexicographic comparison of the strings agrees with `≤` on
  ordinals, so nothing the claims mention is lost in the translation.
* Python strings are Lean `String`s; the only `str.replace` calls in the
  normalizer have single-character arguments, so they are character maps.
-/

namespace TokenMonitor

/-! ## Python string primitives used by pricing.py -/

/-- Python `str.lower()` (per-character lowering; the model names involved
are ASCII). -/
def pyLower (s : String) : String :=
  String.mk (s.toList.map Char.toLower)

/-- Characters removed by Python `str.strip()` with no argument (ASCII
whitespace). -/
def isPySpace (c : Char) : Bool :=
  c = ' ' || c = '\t' || c = '\n' || c = '\r' || c = '\x0b' || c = '\x0c'

/-- Python `str.strip()`: drop leading and trailing whitespace. -/
def pyStrip (s : String) : String :=
  String.mk (((s.toList.dropWhile isPySpace).reverse.dropWhile isPySpace).reverse)

/-- Python `str.replace(a, b)` where both arguments are single characters
(the only form used in `normalize_model_name`). -/
def pyReplaceChar (s : String) (a b : Char) : String :=
  String.mk (s.toList.map fun c => if c = a then b else c)

/-- Whether the second character list occurs at the start of the first. -/
def startsWithChars : List Char → List Char → Bool
  | _, [] => true
  | [], _ :: _ => false
  | c :: cs, p :: ps => c == p && startsWithChars cs ps

/-- Whether the second character list occurs contiguously inside the
first. -/
def containsChars : List Char → List Char → Bool
  | [], pat => pat.isEmpty
  | c :: t, pat => startsWithChars (c :: t) pat || containsChars t pat

/-- Python `sub in s` substring containment. -/
def pyContains (s sub : String) : Bool :=
  containsChars s.toList sub.toList

/-! ## pricing.py -/

/-- Per-model unit prices in dollars per million tokens
(`ModelPricing`, pricing.py lines 26-51; prices validated non-negative at
construction, which holds for every entry of the static table below). -/
structure ModelPricing where
  model_name : String
  input_price : ℚ
  output_price : ℚ
  cache_read_price : ℚ
  cache_write_price : ℚ
deriving DecidableEq

/-- The static pricing table `PRICING_CONFIG` (pricing.py lines 58-115),
in dict insertion order. -/
def PRICING_CONFIG : List (String × ModelPricing) :=
  [ ("claude-opus-4.5",
      ⟨"claude-opus-4.5", 15, 75, 3/2, 75/4⟩),
    ("claude-opus-4-5-20251101",
      ⟨"claude-opus-4-5-20251101", 15, 75, 3/2, 75/4⟩),
    ("claude-opus-4-5-thinking",
      ⟨"claude-opus-4-5-thinking", 15, 75, 3/2, 75/4⟩),
    ("claude-sonnet-4.5",
      ⟨"claude-sonnet-4.5", 3, 15, 3/10, 15/4⟩),
    ("claude-sonnet-4-5-20250929",
      ⟨"claude-sonnet-4-5-20250929", 3, 15, 3/10, 15/4⟩),
    ("claude-haiku-4.5",
      ⟨"claude-haiku-4.5", 4/5, 4, 2/25, 1⟩),
    ("claude-haiku-4-5-20251001",
      ⟨"claude-haiku-4-5-20251001", 4/5, 4, 2/25, 1⟩) ]

/-- The normalization steps of `normalize_model_name` that precede the
final dot replacement (pricing.py lines 137-141): lower-case, strip,
space and underscore to hyphen. -/
def preDot (s : String) : String :=
  pyReplaceChar (pyReplaceChar (pyStrip (pyLower s)) ' ' '-') '_' '-'

/-- `normalize_model_name` (pricing.py lines 118-159): lower-case, strip,
replace space and underscore by hyphen; if the result carries a legacy
3-5/3.5 marker together with opus/sonnet/haiku it is re-mapped to the
current-generation label, otherwise dots are replaced by hyphens. -/
def normalize_model_name (model_name : String) : String :=
  let normalized := preDot model_name
  if pyContains normalized "3-5" || pyContains normalized "3.5" then
    if pyContains normalized "opus" then "claude-opus-4.5"
    else if pyContains normalized "sonnet" then "claude-sonnet-4.5"
    else if pyContains normalized "haiku" then "claude-haiku-4.5"
    else pyReplaceChar normalized '.' '-'
  else pyReplaceChar normalized '.' '-'

/-- `get_model_pricing` (pricing.py lines 162-185): exact key lookup
first, then the first key related to the normalized name by substring
containment in either direction, else not found. -/
def get_model_pricing (model_name : String) : Option ModelPricing :=
  match PRICING_CONFIG.find? (fun kv => kv.1 == normalize_model_name model_name) with
  | some kv => some kv.2
  | none =>
    match PRICING_CONFIG.find? (fun kv =>
        pyContains kv.1 (normalize_model_name model_name) ||
        pyContains (normalize_model_name model_name) kv.1) with
    | some kv => some kv.2
    | none => none

/-- `calculate_cost` (pricing.py lines 188-241): sum over the four token
types of count / 1e6 * unit price; 0 when no pricing is found. -/
def calculate_cost (input_tokens output_tokens cache_read_tokens
    cache_creation_tokens : ℕ) (model_name : String) : ℚ :=
  match get_model_pricing model_name with
  | none => 0
  | some pricing =>
      (input_tokens : ℚ) / 1000000 * pricing.input_price
      + (output_tokens : ℚ) / 1000000 * pricing.output_price
      + (cache_read_tokens : ℚ) / 1000000 * pricing.cache_read_price
      + (cache_creation_tokens : ℚ) / 1000000 * pricing.cache_write_price

/-! ## schemas.py: the data model used by the processor and reader -/

/-- `ModelUsage` (schemas.py lines 49-110): token usage of one model. -/
structure ModelUsage where
  model_name : String
  input_tokens : ℕ
  output_tokens : ℕ
  cache_read_tokens : ℕ
  cache_creation_tokens : ℕ
deriving DecidableEq

/-- `DailyModelTokens` (schemas.py lines 127-207): per-model usage on one
calendar date.  Dates are modelled by their day ordinals. -/
structure DailyModelTokens where
  date : ℕ
  model_name : String
  input_tokens : ℕ
  output_tokens : ℕ
  cache_read_tokens : ℕ
  cache_creation_tokens : ℕ
deriving DecidableEq

/-- `DailyActivity` (schemas.py lines 208-237). -/
structure DailyActivity where
  date : ℕ
  session_count : ℕ
  total_tokens : ℕ
  models : List DailyModelTokens
deriving DecidableEq

def defaultActivity : DailyActivity := ⟨0, 0, 0, []⟩

/-! ## data_processor.py -/

/-- Lookup in a Python dict modelled as an association list built by
iterated insertion: the last binding of a key wins. -/
def dictGetMU (d : List (String × ModelUsage)) (k : String) : Option ModelUsage :=
  (d.find? (fun p => p.1 == k)).map (fun p => p.2)

/-- Python dict assignment `d[k] = v`: overwrite in place when the key is
present, append otherwise. -/
def dictSetMU (d : List (String × ModelUsage)) (k : String) (v : ModelUsage) :
    List (String × ModelUsage) :=
  if d.any (fun p => p.1 == k) then d.map (fun p => if p.1 == k then (k, v) else p)
  else d ++ [(k, v)]

/-- `aggregate_model_stats` (data_processor.py lines 63-95): fold over the
items of the input dict, summing token counts into the accumulator when a
model name repeats and inserting the usage unchanged otherwise. -/
def aggregate_model_stats (model_usages : List (String × ModelUsage)) :
    List (String × ModelUsage) :=
  model_usages.foldl (fun aggregated mu =>
    match dictGetMU aggregated mu.1 with
    | some existing =>
        dictSetMU aggregated mu.1
          ⟨mu.1,
           existing.input_tokens + mu.2.input_tokens,
           existing.output_tokens + mu.2.output_tokens,
           existing.cache_read_tokens + mu.2.cache_read_tokens,
           existing.cache_creation_tokens + mu.2.cache_creation_tokens⟩
    | none => dictSetMU aggregated mu.1 mu.2) []

/-- Python list slice `l[a:b]` for naturals `a ≤ b`. -/
def pySlice (l : List α) (a b : ℕ) : List α := (l.drop a).take (b - a)

/-- Round-half-to-even of a rational to an integer, the rounding mode of
Python `round`. -/
def roundHalfEven (q : ℚ) : ℤ :=
  if q - ⌊q⌋ < 1/2 then ⌊q⌋
  else if (1 : ℚ)/2 < q - ⌊q⌋ then ⌊q⌋ + 1
  else if ⌊q⌋ % 2 = 0 then ⌊q⌋ else ⌊q⌋ + 1

/-- Python `round(x, 2)` modelled exactly over the rationals. -/
def pyRound2 (q : ℚ) : ℚ := (roundHalfEven (q * 100) : ℚ) / 100

/-- Order used by `sorted(daily_activities, key=lambda x: x.date)`. -/
def dateLE (a b : DailyActivity) : Prop := a.date ≤ b.date

instance : DecidableRel dateLE := fun a b => Nat.decLe a.date b.date

instance : IsTotal DailyActivity dateLE := ⟨fun a b => Nat.le_total a.date b.date⟩

instance : IsTrans DailyActivity dateLE := ⟨fun _ _ _ => Nat.le_trans⟩

/-- Python `sorted` is a stable sort; insertion sort is as well. -/
def sortByDate (xs : List DailyActivity) : List DailyActivity :=
  List.insertionSort dateLE xs

/-- One row of the dict produced per day by `calculate_trends`. -/
structure TrendEntry where
  total_tokens : ℕ
  prev_period_avg : ℚ
  growth_rate : ℚ
  session_count : ℕ
deriving DecidableEq

/-- The previous-period window mean used by `calculate_trends`
(data_processor.py lines 135-144): mean of `total_tokens` over the slice
`sorted[max 0 (i - period) : i]`, 0 when the slice is empty. -/
def windowAvg (s : List DailyActivity) (period i : ℕ) : ℚ :=
  let w := pySlice s (i - period) i
  if w.length = 0 then 0
  else ((w.map (fun a => a.total_tokens)).sum : ℚ) / w.length

/-- The trend row computed at index `i` of the sorted series
(data_processor.py lines 131-157), with the stored fields rounded to two
decimals as in the source. -/
def trendEntry (s : List DailyActivity) (period i : ℕ) : TrendEntry :=
  let act := s.getD i defaultActivity
  let prev_avg := windowAvg s period i
  let growth : ℚ :=
    if 0 < prev_avg then ((act.total_tokens : ℚ) - prev_avg) / prev_avg * 100 else 0
  ⟨act.total_tokens, pyRound2 prev_avg, pyRound2 growth, act.session_count⟩

/-- `calculate_trends` (data_processor.py lines 98-160) as the association
list of dict insertions, in iteration order; the resulting dict is read
through `trendLookup`. -/
def calculate_trends (daily_activities : List DailyActivity) (period_days : ℕ) :
    List (ℕ × TrendEntry) :=
  if daily_activities.isEmpty then []
  else (List.range (sortByDate daily_activities).length).map
    (fun i => (((sortByDate daily_activities).getD i defaultActivity).date,
               trendEntry (sortByDate daily_activities) period_days i))

/-- Lookup of a date in the trends dict: the last insertion for a key
wins. -/
def trendLookup (l : List (ℕ × TrendEntry)) (d : ℕ) : Option TrendEntry :=
  (l.reverse.find? (fun p => p.1 == d)).map (fun p => p.2)

/-- The dict comprehension `{activity.date: activity for activity in xs}`
of `fill_missing_dates` (data_processor.py line 389): the last activity
with a given date wins. -/
def dictFindActivity (xs : List DailyActivity) (d : ℕ) : Option DailyActivity :=
  xs.reverse.find? (fun a => a.date == d)

/-- The `while current_dt <= end_dt` loop of `fill_missing_dates`
(data_processor.py lines 396-413): reuse the stored activity for a date
when present, otherwise create an empty record; advance one day.  The
loop runs once per day of [current, endD], that is `endD + 1 - current`
times, which the recursion takes as its fuel. -/
def fillLoop (xs : List DailyActivity) (current : ℕ) : ℕ → List DailyActivity
  | 0 => []
  | n + 1 =>
    (match dictFindActivity xs current with
     | some act => act
     | none => ⟨current, 0, 0, []⟩) :: fillLoop xs (current + 1) n

/-- `fill_missing_dates` (data_processor.py lines 370-419). -/
def fill_missing_dates (daily_activities : List DailyActivity)
    (start_date end_date : ℕ) : List DailyActivity :=
  fillLoop daily_activities start_date (end_date + 1 - start_date)

/-! ## stats_reader.py: get_daily_activity -/

/-- An item of the cache document's `dailyActivity` array (only the
fields the reader uses). -/
structure RawDailyActivity where
  date : ℕ
  sessionCount : ℕ
deriving DecidableEq

/-- An item of the cache document's `dailyModelTokens` array. -/
structure RawDailyModelTokens where
  date : ℕ
  tokensByModel : List (String × ℕ)
deriving DecidableEq

/-- The parsed cache document as consumed by `get_daily_activity`
(stats_reader.py lines 209-281); token counts are naturals, as validated
by the schemas. -/
structure StatsCacheDoc where
  dailyActivity : List RawDailyActivity
  dailyModelTokens : List RawDailyModelTokens
deriving DecidableEq

/-- The `date_to_tokens` dict of `get_daily_activity` (stats_reader.py
lines 236-240) with its `.get(date, {})` read: last item per date wins,
missing dates give an empty mapping. -/
def date_to_tokens (l : List RawDailyModelTokens) (d : ℕ) : List (String × ℕ) :=
  match l.reverse.find? (fun it => it.date == d) with
  | some it => it.tokensByModel
  | none => []

/-- `get_daily_activity` (stats_reader.py lines 209-281): filter the raw
daily activities by the optional date range, then build a DailyActivity
whose total is the sum of that date's tokensByModel values and whose
models list has one zero-split DailyModelTokens per tokensByModel item. -/
def get_daily_activity (cache : StatsCacheDoc) (start_date end_date : Option ℕ) :
    List DailyActivity :=
  cache.dailyActivity.filterMap (fun act =>
    if start_date.any (fun s => decide (act.date < s)) then none
    else if end_date.any (fun e => decide (e < act.date)) then none
    else
      some { date := act.date,
             session_count := act.sessionCount,
             total_tokens :=
               ((date_to_tokens cache.dailyModelTokens act.date).map (fun p => p.2)).sum,
             models := (date_to_tokens cache.dailyModelTokens act.date).map
               (fun p => ⟨act.date, p.1, 0, 0, 0, 0⟩) })

/-! ## file_watcher.py -/

/-- Debounce semantics of `DebouncedFileHandler` for one watched path.

The handler keeps, per path, at most one pending `threading.Timer` set to
fire `debounce_seconds` after the event that created it; a fresh
`on_modified` event for the same path cancels a still-pending timer and
starts a new one (file_watcher.py lines 86-97), and a timer that reaches
its deadline removes itself and invokes the callback exactly once
(lines 99-116; an exception in the callback is caught, so each firing is
one callback invocation).  `debounceFires D pending events` counts the
callback firings for one path given the deadline of the currently
pending timer and the (increasing) times of the remaining qualifying
events: an event at time `t` sees the pending timer fire beforehand
exactly when its deadline beats `t`, and otherwise cancels it; either
way the event leaves a fresh timer with deadline `t + D`.  Directory
events and events for non-watched extensions never reach this logic
(lines 73-82), so the event list holds the qualifying events only. -/
def debounceFires (D : ℚ) : Option ℚ → List ℚ → ℕ
  | none, [] => 0
  | some _, [] => 1
  | pending, t :: rest =>
    (match pending with
     | some deadline => if deadline < t then 1 else 0
     | none => 0) + debounceFires D (some (t + D)) rest

/-- Number of callback firings for a burst of qualifying modification
events of one path, starting with no pending timer and letting the last
timer run out. -/
def callbackCount (D : ℚ) (events : List ℚ) : ℕ := debounceFires D none events

/-- The two exceptions `FileWatcher.start_watching` can raise. -/
inductive WatchError where
  | runtimeError : WatchError
  | fileNotFoundError : WatchError
deriving DecidableEq

/-- The mutable state of a `FileWatcher` relevant to its start contract:
the running flag and the observer handle (modelled as an opaque number).
-/
structure FileWatcherState where
  is_running : Bool
  observer : Option ℕ
deriving DecidableEq

/-- `FileWatcher.start_watching` (file_watcher.py lines 202-248): raise a
RuntimeError when already running, a FileNotFoundError when the watched
root does not exist — both checks precede every mutation, so the state is
returned unchanged alongside the error — otherwise start a fresh observer
and set the running flag. -/
def start_watching (w : FileWatcherState) (claude_dir_exists : Bool) :
    FileWatcherState × Option WatchError :=
  if w.is_running then (w, some WatchError.runtimeError)
  else if !claude_dir_exists then (w, some WatchError.fileNotFoundError)
  else ({ is_running := true, observer := some 0 }, none)

/-! ## websocket.py: ConnectionManager -/

/-- Per-connection metadata (websocket.py lines 66-70). -/
structure ConnMeta where
  client_id : String
  connected_at : String
  last_heartbeat : String
deriving DecidableEq

/-- The state of `ConnectionManager` (websocket.py lines 38-51):
subscriber handles are modelled as numbers. -/
structure ConnectionManager where
  active_connections : List ℕ
  connection_metadata : List (ℕ × ConnMeta)
deriving DecidableEq

/-- `ConnectionManager.disconnect` (websocket.py lines 91-108):
`list.remove` drops the first occurrence when present, `dict.pop` drops
the binding when present. -/
def disconnect (m : ConnectionManager) (ws : ℕ) : ConnectionManager :=
  { active_connections :=
      if ws ∈ m.active_connections then m.active_connections.erase ws
      else m.active_connections,
    connection_metadata := m.connection_metadata.eraseP (fun p => p.1 == ws) }

/-- `ConnectionManager.broadcast` (websocket.py lines 138-174) with
`_safe_send` (lines 176-194): nothing happens without active connections;
otherwise every per-subscriber send runs, `_safe_send` catches each
failure and records the failed handle instead of raising, and after the
gather completes every failed handle is disconnected.  `sendFails` tells
which sends fail; the failed handles are collected here in list order —
the concurrent completion order may differ, but `disconnect` folds to the
same state for any order of the same distinct handles. -/
def broadcast (m : ConnectionManager) (sendFails : ℕ → Bool) : ConnectionManager :=
  if m.active_connections.isEmpty then m
  else (m.active_connections.filter sendFails).foldl disconnect m

/-! ## Helper lemmas about the string primitives -/

lemma toList_pyReplaceChar (s : String) (a b : Char) :
    (pyReplaceChar s a b).toList = s.toList.map (fun c => if c = a then b else c) := rfl

lemma mem_pyReplaceChar {c a b : Char} {s : String}
    (h : c ∈ (pyReplaceChar s a b).toList) :
    c = b ∨ (c ∈ s.toList ∧ c ≠ a) := by
  rw [toList_pyReplaceChar] at h
  rcases List.mem_map.mp h with ⟨x, hx, hfx⟩
  by_cases hxa : x = a
  · left
    rw [← hfx, if_pos hxa]
  · right
    rw [← hfx, if_neg hxa]
    exact ⟨hx, hxa⟩

/-- Characters of the non-legacy normalization result: after the space,
underscore and dot replacements no dot, space or underscore remains. -/
lemma preDot_dot_chars (s : String) {c : Char}
    (h : c ∈ (pyReplaceChar (preDot s) '.' '-').toList) :
    c ≠ '.' ∧ c ≠ ' ' ∧ c ≠ '_' := by
  rcases mem_pyReplaceChar h with rfl | ⟨h1, hdot⟩
  · exact ⟨by decide, by decide, by decide⟩
  · rcases mem_pyReplaceChar h1 with rfl | ⟨h2, hund⟩
    · exact ⟨by decide, by decide, by decide⟩
    · rcases mem_pyReplaceChar h2 with rfl | ⟨_, hsp⟩
      · exact ⟨by decide, by decide, by decide⟩
      · exact ⟨hdot, hsp, hund⟩

/-! ## Claims C4, C5, C6 -/

/-- C4: the cost of model usage (model "claude-sonnet-4.5",
input 1000000, output 500000, no cache tokens) is exactly 10.5 USD
(3.0 for input plus 7.5 for output); the pricing lookup for
"claude-sonnet-4.5" resolves to the Sonnet 4.5 prices (input 3 $/M,
output 15 $/M), and the cost is the sum over the four token types of
count / 1e6 * unit price. -/
theorem calculate_cost_sonnet45_scenario :
    (get_model_pricing "claude-sonnet-4.5").map
      (fun p => (p.input_price, p.output_price)) = some (3, 15) ∧
    calculate_cost 1000000 500000 0 0 "claude-sonnet-4.5" = 21/2 := by
  have hp : get_model_pricing "claude-sonnet-4.5" =
      some ⟨"claude-sonnet-4-5-20250929", 3, 15, 3/10, 15/4⟩ := by rfl
  refine ⟨by rw [hp]; rfl, ?_⟩
  rw [calculate_cost, hp]
  norm_num

/-- C5: for every model name with neither an exact normalized-key match
nor a substring match (in either direction) against the pricing table,
the lookup returns none and the cost is 0 for all token counts. -/
theorem unknown_model_cost_zero (m : String)
    (h : ∀ kv ∈ PRICING_CONFIG, kv.1 ≠ normalize_model_name m ∧
        pyContains kv.1 (normalize_model_name m) = false ∧
        pyContains (normalize_model_name m) kv.1 = false) :
    get_model_pricing m = none ∧
    ∀ i o cr cc : ℕ, calculate_cost i o cr cc m = 0 := by
  have h1 : PRICING_CONFIG.find? (fun kv => kv.1 == normalize_model_name m) = none := by
    refine List.find?_eq_none.mpr fun kv hkv => ?_
    simpa using (h kv hkv).1
  have h2 : PRICING_CONFIG.find? (fun kv =>
      pyContains kv.1 (normalize_model_name m) ||
      pyContains (normalize_model_name m) kv.1) = none := by
    refine List.find?_eq_none.mpr fun kv hkv => ?_
    simp [(h kv hkv).2.1, (h kv hkv).2.2]
  have hg : get_model_pricing m = none := by
    rw [get_model_pricing, h1, h2]
  exact ⟨hg, fun i o cr cc => by rw [calculate_cost, hg]⟩

theorem unknown_model_cost_zero_witness :
    get_model_pricing "gpt-4" = none ∧ calculate_cost 123 456 789 12 "gpt-4" = 0 :=
  have h := unknown_model_cost_zero "gpt-4" (by decide)
  ⟨h.1, h.2 123 456 789 12⟩

/-- C6 counterexample: the claim describes the returned key as the
lower-cased input with spaces, underscores and dots replaced by hyphens,
but the code also strips leading and trailing whitespace first, so on the
input " x" the code returns "x" while the claimed transform yields "-x". -/
theorem normalize_model_name_counterexample :
    normalize_model_name " x" = "x" ∧
    pyReplaceChar (pyReplaceChar (pyReplaceChar (pyLower " x") ' ' '-') '_' '-') '.' '-'
      = "-x" ∧
    ("x" : String) ≠ "-x" := by decide

/-- C6 amended: the key returned by normalize_model_name is the
lower-cased, whitespace-stripped input with every space and underscore
replaced by a hyphen and every dot replaced by a hyphen (so the returned
key then never contains a '.', ' ' or '_' character), except that inputs
containing a legacy 3-5/3.5 generation marker together with
opus/sonnet/haiku are re-mapped to the corresponding current-generation
label. -/
theorem normalize_model_name_spec (s : String) :
    ((pyContains (preDot s) "3-5" || pyContains (preDot s) "3.5") = false ∨
        (pyContains (preDot s) "opus" = false ∧ pyContains (preDot s) "sonnet" = false ∧
         pyContains (preDot s) "haiku" = false) →
      normalize_model_name s = pyReplaceChar (preDot s) '.' '-' ∧
      ∀ c ∈ (normalize_model_name s).toList, c ≠ '.' ∧ c ≠ ' ' ∧ c ≠ '_') ∧
    ((pyContains (preDot s) "3-5" || pyContains (preDot s) "3.5") = true →
      pyContains (preDot s) "opus" = true →
      normalize_model_name s = "claude-opus-4.5") ∧
    ((pyContains (preDot s) "3-5" || pyContains (preDot s) "3.5") = true →
      pyContains (preDot s) "opus" = false → pyContains (preDot s) "sonnet" = true →
      normalize_model_name s = "claude-sonnet-4.5") ∧
    ((pyContains (preDot s) "3-5" || pyContains (preDot s) "3.5") = true →
      pyContains (preDot s) "opus" = false → pyContains (preDot s) "sonnet" = false →
      pyContains (preDot s) "haiku" = true →
      normalize_model_name s = "claude-haiku-4.5") := by
  refine ⟨fun hcase => ?_, fun hm ho => ?_, fun hm ho hs => ?_, fun hm ho hs hh => ?_⟩
  · have heq : normalize_model_name s = pyReplaceChar (preDot s) '.' '-' := by
      rcases hcase with hm | ⟨ho, hs, hh⟩
      · rw [normalize_model_name]
        simp [hm]
      · rw [normalize_model_name]
        by_cases hm : (pyContains (preDot s) "3-5" || pyContains (preDot s) "3.5") = true
        · simp [hm, ho, hs, hh]
        · simp only [Bool.not_eq_true] at hm
          simp [hm]
    exact ⟨heq, fun c hc => preDot_dot_chars s (heq ▸ hc)⟩
  · rw [normalize_model_name]
    simp [hm, ho]
  · rw [normalize_model_name]
    simp [hm, ho, hs]
  · rw [normalize_model_name]
    simp [hm, ho, hs, hh]

/-! ## Claim C3: fill_missing_dates -/

lemma dictFindActivity_date {xs : List DailyActivity} {d : ℕ} {act : DailyActivity}
    (h : dictFindActivity xs d = some act) : act.date = d := by
  simpa using List.find?_some h

lemma dictFindActivity_mem {xs : List DailyActivity} {d : ℕ} {act : DailyActivity}
    (h : dictFindActivity xs d = some act) : act ∈ xs :=
  List.mem_reverse.mp (List.mem_of_find?_eq_some h)

lemma dictFindActivity_none {xs : List DailyActivity} {d : ℕ}
    (h : dictFindActivity xs d = none) : ∀ x ∈ xs, x.date ≠ d := by
  intro x hx
  have := List.find?_eq_none.mp h x (List.mem_reverse.mpr hx)
  simpa using this

lemma fillLoop_map_date (xs : List DailyActivity) :
    ∀ (n current : ℕ), (fillLoop xs current n).map (fun e => e.date) = List.range' current n := by
  intro n
  induction n with
  | zero => intro current; rfl
  | succ n ih =>
    intro current
    rw [List.range'_succ]
    unfold fillLoop
    cases hfind : dictFindActivity xs current with
    | some act =>
      simp only [hfind, List.map_cons, ih (current + 1)]
      rw [dictFindActivity_date hfind]
    | none => simp only [hfind, List.map_cons, ih (current + 1)]

lemma fillLoop_entries (xs : List DailyActivity) :
    ∀ (n current : ℕ), ∀ e ∈ fillLoop xs current n,
      (∃ x ∈ xs, x.date = e.date ∧ e = x) ∨
      ((∀ x ∈ xs, x.date ≠ e.date) ∧ e = ⟨e.date, 0, 0, []⟩) := by
  intro n
  induction n with
  | zero => intro current e he; cases he
  | succ n ih =>
    intro current e he
    rw [fillLoop] at he
    rcases List.mem_cons.mp he with rfl | he
    · cases hfind : dictFindActivity xs current with
      | some act =>
        simp only [hfind]
        exact Or.inl ⟨act, dictFindActivity_mem hfind, rfl, rfl⟩
      | none =>
        simp only [hfind]
        exact Or.inr ⟨dictFindActivity_none hfind, trivial⟩
    · exact ih (current + 1) e he

/-- C3: for dates a ≤ b, fill_missing_dates returns exactly
(b - a) + 1 entries whose dates are precisely the calendar dates of
[a, b] in strictly ascending (hence pairwise distinct) order; every
entry at a date present in the input reuses an input activity with that
date unchanged, and every entry at an absent date is a zero activity
with an empty model list. -/
theorem fill_missing_dates_spec (xs : List DailyActivity) (a b : ℕ) (hab : a ≤ b) :
    (fill_missing_dates xs a b).length = b - a + 1 ∧
    (fill_missing_dates xs a b).map (fun e => e.date) = List.range' a (b - a + 1) ∧
    ((fill_missing_dates xs a b).map (fun e => e.date)).Pairwise (fun p q => p < q) ∧
    ∀ e ∈ fill_missing_dates xs a b,
      (∃ x ∈ xs, x.date = e.date ∧ e = x) ∨
      ((∀ x ∈ xs, x.date ≠ e.date) ∧ e = ⟨e.date, 0, 0, []⟩) := by
  have hn : b + 1 - a = b - a + 1 := by omega
  have hmap : (fill_missing_dates xs a b).map (fun e => e.date) = List.range' a (b - a + 1) := by
    rw [fill_missing_dates, hn] at *
    exact fillLoop_map_date xs (b - a + 1) a
  refine ⟨?_, hmap, ?_, ?_⟩
  · have := congrArg List.length hmap
    simpa using this
  · rw [hmap]
    exact List.pairwise_lt_range' a (b - a + 1)
  · rw [fill_missing_dates, hn]
    exact fillLoop_entries xs (b - a + 1) a

theorem fill_missing_dates_spec_witness :
    (fill_missing_dates [⟨5, 1, 10, []⟩] 4 6).length = 6 - 4 + 1 ∧
    (fill_missing_dates [⟨5, 1, 10, []⟩] 4 6).map (fun e => e.date) = List.range' 4 (6 - 4 + 1) ∧
    ((fill_missing_dates [⟨5, 1, 10, []⟩] 4 6).map (fun e => e.date)).Pairwise (fun p q => p < q) ∧
    ∀ e ∈ fill_missing_dates [⟨5, 1, 10, []⟩] 4 6,
      (∃ x ∈ [(⟨5, 1, 10, []⟩ : DailyActivity)], x.date = e.date ∧ e = x) ∨
      ((∀ x ∈ [(⟨5, 1, 10, []⟩ : DailyActivity)], x.date ≠ e.date) ∧ e = ⟨e.date, 0, 0, []⟩) :=
  fill_missing_dates_spec [⟨5, 1, 10, []⟩] 4 6 (by decide)

/-! ## Claim C10: aggregate_model_stats on a dict is the identity -/

lemma dictGetMU_eq_none {d : List (String × ModelUsage)} {k : String}
    (h : ∀ p ∈ d, p.1 ≠ k) : dictGetMU d k = none := by
  unfold dictGetMU
  rw [List.find?_eq_none.mpr (fun p hp => by simpa using h p hp)]
  rfl

lemma dictSetMU_absent {d : List (String × ModelUsage)} {k : String} (v : ModelUsage)
    (h : ∀ p ∈ d, p.1 ≠ k) : dictSetMU d k v = d ++ [(k, v)] := by
  have hany : d.any (fun p => p.1 == k) = false := by
    rw [List.any_eq_false]
    intro p hp
    simpa using h p hp
  unfold dictSetMU
  rw [if_neg (by rw [hany]; exact Bool.false_ne_true)]

lemma aggregate_loop (l : List (String × ModelUsage)) :
    ∀ acc : List (String × ModelUsage),
      (∀ p ∈ acc, ∀ q ∈ l, p.1 ≠ q.1) →
      (l.map (fun p => p.1)).Nodup →
      l.foldl (fun aggregated mu =>
        match dictGetMU aggregated mu.1 with
        | some existing =>
            dictSetMU aggregated mu.1
              ⟨mu.1,
               existing.input_tokens + mu.2.input_tokens,
               existing.output_tokens + mu.2.output_tokens,
               existing.cache_read_tokens + mu.2.cache_read_tokens,
               existing.cache_creation_tokens + mu.2.cache_creation_tokens⟩
        | none => dictSetMU aggregated mu.1 mu.2) acc = acc ++ l := by
  induction l with
  | nil => intro acc _ _; simp
  | cons kv rest ih =>
    intro acc hdisj hnd
    have hget : dictGetMU acc kv.1 = none :=
      dictGetMU_eq_none (fun p hp => hdisj p hp kv (List.mem_cons_self kv rest))
    have hset : dictSetMU acc kv.1 kv.2 = acc ++ [kv] :=
      dictSetMU_absent kv.2 (fun p hp => hdisj p hp kv (List.mem_cons_self kv rest))
    simp only [List.foldl_cons, hget, hset]
    rw [ih (acc ++ [kv]) ?_ (by simpa using hnd.of_cons)]
    · simp
    · intro p hp q hq
      rcases List.mem_append.mp hp with hp | hp
      · exact hdisj p hp q (List.mem_cons_of_mem kv hq)
      · have hpkv : p = kv := by simpa using hp
        subst hpkv
        simp only [List.map_cons, List.nodup_cons] at hnd
        intro hpq
        exact hnd.1 (hpq ▸ List.mem_map_of_mem (fun r => r.1) hq)

/-- C10: on every dict (association list with pairwise-distinct keys,
which is what iterating a Python dict yields), aggregate_model_stats is
the identity: the accumulation branch for an already-seen model name is
never taken. -/
theorem aggregate_model_stats_id (l : List (String × ModelUsage))
    (hnd : (l.map (fun p => p.1)).Nodup) : aggregate_model_stats l = l := by
  unfold aggregate_model_stats
  rw [aggregate_loop l [] (by intro p hp; cases hp) hnd]
  rfl

theorem aggregate_model_stats_id_witness :
    aggregate_model_stats [("a", ⟨"a", 1, 2, 3, 4⟩), ("b", ⟨"b", 5, 6, 7, 8⟩)]
      = [("a", ⟨"a", 1, 2, 3, 4⟩), ("b", ⟨"b", 5, 6, 7, 8⟩)] :=
  aggregate_model_stats_id [("a", ⟨"a", 1, 2, 3, 4⟩), ("b", ⟨"b", 5, 6, 7, 8⟩)] (by decide)

/-! ## Claim C8: start_watching precondition failures -/

/-- C8: starting an already-running watcher raises RuntimeError and
leaves the state (running flag and observer handle) unchanged; starting a
stopped watcher whose watched root does not exist raises
FileNotFoundError and leaves the watcher not running, its state
unchanged.  Both errors are returned synchronously by the model of the
call. -/
theorem start_watching_spec (w : FileWatcherState) (dirExists : Bool) :
    (w.is_running = true →
      start_watching w dirExists = (w, some WatchError.runtimeError)) ∧
    (w.is_running = false → dirExists = false →
      start_watching w dirExists = (w, some WatchError.fileNotFoundError)) := by
  constructor
  · intro h
    rw [start_watching, if_pos h]
  · intro h hdir
    rw [start_watching, if_neg (by rw [h]; exact Bool.false_ne_true), if_pos (by rw [hdir]; rfl)]

theorem start_watching_spec_witness :
    start_watching ⟨true, some 7⟩ true = (⟨true, some 7⟩, some WatchError.runtimeError) ∧
    start_watching ⟨false, none⟩ false = (⟨false, none⟩, some WatchError.fileNotFoundError) :=
  ⟨(start_watching_spec ⟨true, some 7⟩ true).1 rfl,
   (start_watching_spec ⟨false, none⟩ false).2 rfl rfl⟩

/-! ## Claim C2: broadcast fan-out prunes exactly the failed handles -/

lemma eraseP_eq_filter_keys :
    ∀ (d : List (ℕ × ConnMeta)) (w : ℕ), (d.map (fun p => p.1)).Nodup →
      d.eraseP (fun p => p.1 == w) = d.filter (fun p => !(p.1 == w)) := by
  intro d
  induction d with
  | nil => intro w _; rfl
  | cons p rest ih =>
    intro w hnd
    simp only [List.map_cons, List.nodup_cons] at hnd
    by_cases hk : p.1 = w
    · rw [List.eraseP_cons_of_pos (by simpa using hk), List.filter_cons_of_neg (by simp [hk])]
      refine (List.filter_eq_self.mpr fun q hq => ?_).symm
      have : q.1 ≠ p.1 := fun he => hnd.1 (he ▸ List.mem_map_of_mem (fun r => r.1) hq)
      simp [hk ▸ this]
    · rw [List.eraseP_cons_of_neg (by simpa using hk), List.filter_cons_of_pos (by simpa using hk),
        ih w hnd.2]

lemma disconnect_active (m : ConnectionManager) (w : ℕ)
    (hnd : m.active_connections.Nodup) :
    (disconnect m w).active_connections = m.active_connections.filter (fun c => !(c == w)) := by
  show (if w ∈ m.active_connections then m.active_connections.erase w
        else m.active_connections) = _
  by_cases hw : w ∈ m.active_connections
  · rw [if_pos hw, List.Nodup.erase_eq_filter hnd]
    rfl
  · rw [if_neg hw]
    refine (List.filter_eq_self.mpr fun c hc => ?_).symm
    have : c ≠ w := fun he => hw (he ▸ hc)
    simp [this]

lemma disconnect_metadata (m : ConnectionManager) (w : ℕ)
    (hmd : (m.connection_metadata.map (fun p => p.1)).Nodup) :
    (disconnect m w).connection_metadata
      = m.connection_metadata.filter (fun p => !(p.1 == w)) :=
  eraseP_eq_filter_keys m.connection_metadata w hmd

lemma keys_nodup_filter (d : List (ℕ × ConnMeta)) (q : ℕ × ConnMeta → Bool)
    (hmd : (d.map (fun p => p.1)).Nodup) :
    ((d.filter q).map (fun p => p.1)).Nodup :=
  List.Nodup.sublist (List.Sublist.map (fun p => p.1) (List.filter_sublist d)) hmd

lemma foldl_disconnect :
    ∀ (l : List ℕ) (m : ConnectionManager), m.active_connections.Nodup →
      (m.connection_metadata.map (fun p => p.1)).Nodup →
      (l.foldl disconnect m).active_connections
          = m.active_connections.filter (fun c => !(l.contains c)) ∧
      (l.foldl disconnect m).connection_metadata
          = m.connection_metadata.filter (fun p => !(l.contains p.1)) := by
  intro l
  induction l with
  | nil =>
    intro m _ _
    constructor <;> (refine (List.filter_eq_self.mpr fun x _ => ?_).symm; simp)
  | cons w rest ih =>
    intro m hnd hmd
    have h1 := disconnect_active m w hnd
    have h2 := disconnect_metadata m w hmd
    have hnd' : (disconnect m w).active_connections.Nodup := by
      rw [h1]; exact List.Nodup.filter _ hnd
    have hmd' : ((disconnect m w).connection_metadata.map (fun p => p.1)).Nodup := by
      rw [h2]; exact keys_nodup_filter _ _ hmd
    have hcongr : ∀ (c : ℕ), (!(rest.contains c) && !(c == w)) = !((w :: rest).contains c) := by
      intro c
      by_cases hcw : c = w
      · simp [hcw]
      · simp [List.contains_cons, hcw, Bool.not_or]
    obtain ⟨ha, hb⟩ := ih (disconnect m w) hnd' hmd'
    refine ⟨?_, ?_⟩
    · rw [List.foldl_cons, ha, h1, List.filter_filter]
      exact List.filter_congr fun c _ => hcongr c
    · rw [List.foldl_cons, hb, h2, List.filter_filter]
      exact List.filter_congr fun p _ => hcongr p.1

/-- C2: for every broadcast on a manager whose metadata keys are exactly
its (pairwise-distinct) active connections, the connections that remain
active afterwards are exactly those whose send did not fail, the
metadata map keeps exactly those same keys, and when no send fails the
manager is unchanged (the same N subscribers stay registered).  The
model returns a state for every failure pattern, so no failure escapes
the fan-out. -/
theorem broadcast_spec (m : ConnectionManager) (sendFails : ℕ → Bool)
    (hnd : m.active_connections.Nodup)
    (hkeys : m.connection_metadata.map (fun p => p.1) = m.active_connections) :
    (broadcast m sendFails).active_connections
        = m.active_connections.filter (fun c => !(sendFails c)) ∧
    (broadcast m sendFails).connection_metadata
        = m.connection_metadata.filter (fun p => !(sendFails p.1)) ∧
    ((∀ c ∈ m.active_connections, sendFails c = false) → broadcast m sendFails = m) := by
  have hmd : (m.connection_metadata.map (fun p => p.1)).Nodup := by rw [hkeys]; exact hnd
  have hmain : (broadcast m sendFails).active_connections
        = m.active_connections.filter (fun c => !(sendFails c)) ∧
      (broadcast m sendFails).connection_metadata
        = m.connection_metadata.filter (fun p => !(sendFails p.1)) := by
    by_cases hemp : m.active_connections.isEmpty = true
    · have hae : m.active_connections = [] := List.isEmpty_iff.mp hemp
      have hme : m.connection_metadata = [] := by
        have := hkeys
        rw [hae] at this
        exact List.map_eq_nil_iff.mp this
      rw [broadcast, if_pos hemp, hae, hme]
      exact ⟨rfl, rfl⟩
    · rw [broadcast, if_neg hemp]
      obtain ⟨ha, hb⟩ := foldl_disconnect (m.active_connections.filter sendFails) m hnd hmd
      have hcontains : ∀ c ∈ m.active_connections,
          (m.active_connections.filter sendFails).contains c = sendFails c := by
        intro c hc
        by_cases hf : sendFails c = true
        · simp only [hf]
          exact List.elem_eq_true_of_mem (List.mem_filter.mpr ⟨hc, hf⟩)
        · have hf' : sendFails c = false := by
            cases hsf : sendFails c
            · rfl
            · exact absurd hsf hf
          simp only [hf']
          rw [List.contains_eq_any_beq]
          rw [List.any_eq_false]
          intro x hx
          obtain ⟨hxm, hxf⟩ := List.mem_filter.mp hx
          intro hbeq
          have : c = x := by simpa using hbeq
          rw [this, hxf] at hf'
          cases hf'
      refine ⟨?_, ?_⟩
      · rw [ha]
        exact List.filter_congr fun c hc => by rw [hcontains c hc]
      · rw [hb]
        refine List.filter_congr fun p hp => ?_
        have hpm : p.1 ∈ m.active_connections := by
          rw [← hkeys]
          exact List.mem_map_of_mem (fun r => r.1) hp
        rw [hcontains p.1 hpm]
  refine ⟨hmain.1, hmain.2, fun hok => ?_⟩
  have h1 : (broadcast m sendFails).active_connections = m.active_connections := by
    rw [hmain.1]
    exact List.filter_eq_self.mpr fun c hc => by rw [hok c hc]; rfl
  have h2 : (broadcast m sendFails).connection_metadata = m.connection_metadata := by
    rw [hmain.2]
    refine List.filter_eq_self.mpr fun p hp => ?_
    have hpm : p.1 ∈ m.active_connections := by
      rw [← hkeys]
      exact List.mem_map_of_mem (fun r => r.1) hp
    rw [hok p.1 hpm]
    rfl
  cases hbm : broadcast m sendFails with
  | mk ac cm =>
    rw [hbm] at h1 h2
    cases m with
    | mk ac0 cm0 =>
      simp only at h1 h2
      rw [h1, h2]

theorem broadcast_spec_witness :
    (broadcast ⟨[1, 2, 3], [(1, ⟨"a", "t0", "t0"⟩), (2, ⟨"b", "t0", "t0"⟩), (3, ⟨"c", "t0", "t0"⟩)]⟩
        (fun c => c == 2)).active_connections = [1, 3] ∧
    (broadcast ⟨[1, 2, 3], [(1, ⟨"a", "t0", "t0"⟩), (2, ⟨"b", "t0", "t0"⟩), (3, ⟨"c", "t0", "t0"⟩)]⟩
        (fun c => c == 2)).connection_metadata = [(1, ⟨"a", "t0", "t0"⟩), (3, ⟨"c", "t0", "t0"⟩)] :=
  have h := broadcast_spec
    ⟨[1, 2, 3], [(1, ⟨"a", "t0", "t0"⟩), (2, ⟨"b", "t0", "t0"⟩), (3, ⟨"c", "t0", "t0"⟩)]⟩
    (fun c => c == 2) (by decide) (by decide)
  ⟨h.1.trans (by decide), h.2.1.trans (by decide)⟩

/-! ## Claim C9: get_daily_activity invariants -/

/-- C9: every DailyActivity produced by get_daily_activity has
total_tokens equal to the sum of that date's tokensByModel values, a
models list with exactly one DailyModelTokens per tokensByModel entry,
every such DailyModelTokens carries a zero in all four token-split
fields, and consequently total_tokens equals the sum of its models'
totals (input + output) exactly when all of that date's tokensByModel
values are zero. -/
theorem get_daily_activity_spec (cache : StatsCacheDoc) (sd ed : Option ℕ) :
    ∀ act ∈ get_daily_activity cache sd ed,
      act.total_tokens
          = ((date_to_tokens cache.dailyModelTokens act.date).map (fun p => p.2)).sum ∧
      act.models = (date_to_tokens cache.dailyModelTokens act.date).map
          (fun p => ⟨act.date, p.1, 0, 0, 0, 0⟩) ∧
      (∀ mt ∈ act.models, mt.input_tokens = 0 ∧ mt.output_tokens = 0 ∧
        mt.cache_read_tokens = 0 ∧ mt.cache_creation_tokens = 0) ∧
      (act.total_tokens
          = (act.models.map (fun mt => mt.input_tokens + mt.output_tokens)).sum
        ↔ ∀ v ∈ date_to_tokens cache.dailyModelTokens act.date, v.2 = 0) := by
  intro act hact
  rw [get_daily_activity] at hact
  obtain ⟨raw, hraw, hsome⟩ := List.mem_filterMap.mp hact
  by_cases h1 : sd.any (fun s => decide (raw.date < s)) = true
  · rw [if_pos h1] at hsome
    cases hsome
  · rw [if_neg h1] at hsome
    by_cases h2 : ed.any (fun e => decide (e < raw.date)) = true
    · rw [if_pos h2] at hsome
      cases hsome
    · rw [if_neg h2] at hsome
      injection hsome with hsome
      subst hsome
      refine ⟨rfl, rfl, ?_, ?_⟩
      · intro mt hmt
        obtain ⟨p, hp, hpe⟩ := List.mem_map.mp hmt
        rw [← hpe]
        exact ⟨rfl, rfl, rfl, rfl⟩
      · have hzero : (((date_to_tokens cache.dailyModelTokens raw.date).map
            (fun p => (⟨raw.date, p.1, 0, 0, 0, 0⟩ : DailyModelTokens))).map
              (fun mt => mt.input_tokens + mt.output_tokens)).sum = 0 := by
          rw [List.map_map]
          refine List.sum_eq_zero_iff.mpr fun x hx => ?_
          obtain ⟨p, hp, hpe⟩ := List.mem_map.mp hx
          rw [← hpe]
          rfl
        show ((date_to_tokens cache.dailyModelTokens raw.date).map (fun p => p.2)).sum = _ ↔ _
        rw [hzero, List.sum_eq_zero_iff]
        constructor
        · intro hall v hv
          exact hall v.2 (List.mem_map_of_mem (fun p => p.2) hv)
        · intro hall x hx
          obtain ⟨p, hp, hpe⟩ := List.mem_map.mp hx
          rw [← hpe]
          exact hall p hp

theorem get_daily_activity_spec_witness :
    (⟨10, 2, 0, [⟨10, "m1", 0, 0, 0, 0⟩, ⟨10, "m2", 0, 0, 0, 0⟩]⟩ : DailyActivity).total_tokens
        = ((date_to_tokens [⟨10, [("m1", 0), ("m2", 0)]⟩] 10).map (fun p => p.2)).sum ∧
    (⟨10, 2, 0, [⟨10, "m1", 0, 0, 0, 0⟩, ⟨10, "m2", 0, 0, 0, 0⟩]⟩ : DailyActivity).models
        = (date_to_tokens [⟨10, [("m1", 0), ("m2", 0)]⟩] 10).map
            (fun p => ⟨10, p.1, 0, 0, 0, 0⟩) ∧
    (∀ mt ∈ (⟨10, 2, 0, [⟨10, "m1", 0, 0, 0, 0⟩, ⟨10, "m2", 0, 0, 0, 0⟩]⟩ : DailyActivity).models,
      mt.input_tokens = 0 ∧ mt.output_tokens = 0 ∧
      mt.cache_read_tokens = 0 ∧ mt.cache_creation_tokens = 0) ∧
    ((⟨10, 2, 0, [⟨10, "m1", 0, 0, 0, 0⟩, ⟨10, "m2", 0, 0, 0, 0⟩]⟩ : DailyActivity).total_tokens
        = ((⟨10, 2, 0, [⟨10, "m1", 0, 0, 0, 0⟩, ⟨10, "m2", 0, 0, 0, 0⟩]⟩ : DailyActivity).models.map
            (fun mt => mt.input_tokens + mt.output_tokens)).sum
      ↔ ∀ v ∈ date_to_tokens [⟨10, [("m1", 0), ("m2", 0)]⟩] 10, v.2 = 0) :=
  get_daily_activity_spec ⟨[⟨10, 2⟩], [⟨10, [("m1", 0), ("m2", 0)]⟩]⟩ none none
    ⟨10, 2, 0, [⟨10, "m1", 0, 0, 0, 0⟩, ⟨10, "m2", 0, 0, 0, 0⟩]⟩ (by decide)

/-! ## Claim C7: calculate_trends -/

lemma pyRound2_intCast (z : ℤ) : pyRound2 (z : ℚ) = (z : ℚ) := by
  unfold pyRound2 roundHalfEven
  have h1 : ((z : ℚ) * 100) = ((z * 100 : ℤ) : ℚ) := by push_cast; ring
  rw [h1, Int.floor_intCast, if_pos (by norm_num)]
  push_cast
  field_simp

lemma pyRound2_zero : pyRound2 0 = 0 := by
  simpa using pyRound2_intCast 0

lemma pyRound2_natCast (n : ℕ) : pyRound2 (n : ℚ) = (n : ℚ) := by
  simpa using pyRound2_intCast n

lemma trendLookup_head (x : ℕ × TrendEntry) (rest : List (ℕ × TrendEntry))
    (hr : ∀ p ∈ rest, p.1 ≠ x.1) :
    trendLookup (x :: rest) x.1 = some x.2 := by
  unfold trendLookup
  rw [List.reverse_cons, List.find?_append]
  have hnone : rest.reverse.find? (fun p => p.1 == x.1) = none :=
    List.find?_eq_none.mpr fun p hp => by simpa using hr p (List.mem_reverse.mp hp)
  rw [hnone]
  simp

lemma sortByDate_head_min (xs : List DailyActivity) (a : DailyActivity)
    (ha : a ∈ xs) (hmin : ∀ b ∈ xs, a.date ≤ b.date)
    (hnd : (xs.map (fun x => x.date)).Nodup) :
    ∃ t, sortByDate xs = a :: t ∧ ∀ b ∈ t, b.date ≠ a.date := by
  have hperm : (sortByDate xs).Perm xs := List.perm_insertionSort dateLE xs
  have hsorted : List.Sorted dateLE (sortByDate xs) := List.sorted_insertionSort dateLE xs
  have hnds : ((sortByDate xs).map (fun x => x.date)).Nodup :=
    ((hperm.map (fun x => x.date)).nodup_iff).mpr hnd
  have has : a ∈ sortByDate xs := hperm.mem_iff.mpr ha
  cases hs : sortByDate xs with
  | nil =>
    rw [hs] at has
    cases has
  | cons h t =>
    rw [hs] at has hsorted hnds
    simp only [List.map_cons, List.nodup_cons] at hnds
    have hha : a = h := by
      rcases List.mem_cons.mp has with rfl | hat
      · rfl
      · exfalso
        have h1 : h.date ≤ a.date := (List.pairwise_cons.mp hsorted).1 a hat
        have h2 : a.date ≤ h.date := hmin h (hperm.mem_iff.mp (hs ▸ List.mem_cons_self h t))
        have heq : a.date = h.date := le_antisymm h2 h1
        exact hnds.1 (heq ▸ List.mem_map_of_mem (fun x => x.date) hat)
    subst hha
    exact ⟨t, rfl, fun b hb he => hnds.1 (he ▸ List.mem_map_of_mem (fun x => x.date) hb)⟩

lemma windowAvg_zero_at_start (s : List DailyActivity) (period : ℕ) :
    windowAvg s period 0 = 0 := by
  unfold windowAvg pySlice
  simp

lemma trendEntry_at_start (s : List DailyActivity) (period : ℕ) :
    trendEntry s period 0
      = ⟨(s.getD 0 defaultActivity).total_tokens, 0, 0,
         (s.getD 0 defaultActivity).session_count⟩ := by
  unfold trendEntry
  rw [windowAvg_zero_at_start]
  norm_num [pyRound2_zero]

/-- C7 counterexample: the claim fails twice on the code.  With two
activities sharing the earliest date (dates are not required distinct by
the claim), the dict entry at the earliest date is overwritten by the
second activity, whose one-element window gives prev_period_avg 100, not
0.  And the stored growth_rate is rounded to 2 decimals: for day tokens
3 then 4 the stored value is 33.33, not the exact formula value 100/3. -/
theorem calculate_trends_counterexample :
    (trendLookup (calculate_trends [⟨0, 0, 100, []⟩, ⟨0, 0, 200, []⟩] 7) 0).map
        (fun e => e.prev_period_avg) = some 100 ∧
    (100 : ℚ) ≠ 0 ∧
    (trendLookup (calculate_trends [⟨0, 1, 3, []⟩, ⟨1, 1, 4, []⟩] 7) 1).map
        (fun e => e.growth_rate) = some (3333/100) ∧
    (3333/100 : ℚ) ≠ (((4 : ℚ) - 3) / 3) * 100 := by
  have hround : pyRound2 (100/3 : ℚ) = 3333/100 := by
    unfold pyRound2 roundHalfEven
    have hm : (100/3 : ℚ) * 100 = 10000/3 := by norm_num
    have hfl : ⌊(10000/3 : ℚ)⌋ = 3333 := by
      rw [Int.floor_eq_iff]
      constructor <;> norm_num
    rw [hm, hfl, if_pos (by push_cast; norm_num)]
    push_cast
    norm_num
  refine ⟨?_, by norm_num, ?_, by norm_num⟩
  · have hs : sortByDate [⟨0, 0, 100, []⟩, ⟨0, 0, 200, []⟩]
        = [⟨0, 0, 100, []⟩, ⟨0, 0, 200, []⟩] := by
      simp [sortByDate, dateLE]
    have hlist : calculate_trends [⟨0, 0, 100, []⟩, ⟨0, 0, 200, []⟩] 7
        = [(0, trendEntry [⟨0, 0, 100, []⟩, ⟨0, 0, 200, []⟩] 7 0),
           (0, trendEntry [⟨0, 0, 100, []⟩, ⟨0, 0, 200, []⟩] 7 1)] := by
      rw [calculate_trends, if_neg (by norm_num), hs]
      rfl
    have hlook : trendLookup (calculate_trends [⟨0, 0, 100, []⟩, ⟨0, 0, 200, []⟩] 7) 0
        = some (trendEntry [⟨0, 0, 100, []⟩, ⟨0, 0, 200, []⟩] 7 1) := by
      rw [hlist]
      rfl
    have havg : windowAvg [(⟨0, 0, 100, []⟩ : DailyActivity), ⟨0, 0, 200, []⟩] 7 1 = 100 := by
      unfold windowAvg pySlice
      norm_num
    have hentry : (trendEntry [(⟨0, 0, 100, []⟩ : DailyActivity), ⟨0, 0, 200, []⟩] 7 1).prev_period_avg
        = 100 := by
      show pyRound2 (windowAvg [(⟨0, 0, 100, []⟩ : DailyActivity), ⟨0, 0, 200, []⟩] 7 1) = 100
      rw [havg]
      simpa using pyRound2_natCast 100
    rw [hlook, Option.map_some', hentry]
  · have hs : sortByDate [⟨0, 1, 3, []⟩, ⟨1, 1, 4, []⟩] = [⟨0, 1, 3, []⟩, ⟨1, 1, 4, []⟩] := by
      simp [sortByDate, dateLE]
    have hlist : calculate_trends [⟨0, 1, 3, []⟩, ⟨1, 1, 4, []⟩] 7
        = [(0, trendEntry [⟨0, 1, 3, []⟩, ⟨1, 1, 4, []⟩] 7 0),
           (1, trendEntry [⟨0, 1, 3, []⟩, ⟨1, 1, 4, []⟩] 7 1)] := by
      rw [calculate_trends, if_neg (by norm_num), hs]
      rfl
    have hlook : trendLookup (calculate_trends [⟨0, 1, 3, []⟩, ⟨1, 1, 4, []⟩] 7) 1
        = some (trendEntry [⟨0, 1, 3, []⟩, ⟨1, 1, 4, []⟩] 7 1) := by
      rw [hlist]
      rfl
    have havg : windowAvg [(⟨0, 1, 3, []⟩ : DailyActivity), ⟨1, 1, 4, []⟩] 7 1 = 3 := by
      unfold windowAvg pySlice
      norm_num
    have hentry : (trendEntry [(⟨0, 1, 3, []⟩ : DailyActivity), ⟨1, 1, 4, []⟩] 7 1).growth_rate
        = 3333/100 := by
      show pyRound2 (if 0 < windowAvg [(⟨0, 1, 3, []⟩ : DailyActivity), ⟨1, 1, 4, []⟩] 7 1 then
          ((([(⟨0, 1, 3, []⟩ : DailyActivity), ⟨1, 1, 4, []⟩].getD 1 defaultActivity).total_tokens : ℚ)
            - windowAvg [(⟨0, 1, 3, []⟩ : DailyActivity), ⟨1, 1, 4, []⟩] 7 1)
            / windowAvg [(⟨0, 1, 3, []⟩ : DailyActivity), ⟨1, 1, 4, []⟩] 7 1 * 100
        else 0) = 3333/100
      rw [havg, if_pos (by norm_num)]
      have hcast : ((([(⟨0, 1, 3, []⟩ : DailyActivity), ⟨1, 1, 4, []⟩].getD 1 defaultActivity).total_tokens : ℚ)
          - 3) / 3 * 100 = 100/3 := by
        norm_num
      rw [hcast, hround]
    rw [hlook, Option.map_some', hentry]

/-- C7 amended: for every list of DailyActivity values with pairwise
distinct dates, the trend-map entry at the earliest activity's date has
prev_period_avg 0 and growth_rate 0; and every entry of the trend map
stores as prev_period_avg the 2-decimal rounding of its window average
and as growth_rate the 2-decimal rounding of
(current - window_avg) / window_avg * 100 when the (unrounded) window
average is positive, and 0 when the window average is 0 — the
computation never divides by zero. -/
theorem calculate_trends_spec (xs : List DailyActivity) (period : ℕ)
    (hnd : (xs.map (fun x => x.date)).Nodup) :
    (∀ a ∈ xs, (∀ b ∈ xs, a.date ≤ b.date) →
      trendLookup (calculate_trends xs period) a.date
        = some ⟨a.total_tokens, 0, 0, a.session_count⟩) ∧
    (∀ pr ∈ calculate_trends xs period, ∃ i, i < (sortByDate xs).length ∧
      pr.2.total_tokens = ((sortByDate xs).getD i defaultActivity).total_tokens ∧
      pr.2.prev_period_avg = pyRound2 (windowAvg (sortByDate xs) period i) ∧
      pr.2.growth_rate = (if 0 < windowAvg (sortByDate xs) period i then
          pyRound2 (((((sortByDate xs).getD i defaultActivity).total_tokens : ℚ)
              - windowAvg (sortByDate xs) period i)
            / windowAvg (sortByDate xs) period i * 100)
        else 0)) := by
  constructor
  · intro a ha hmin
    obtain ⟨t, hs, ht⟩ := sortByDate_head_min xs a ha hmin hnd
    have hne : xs.isEmpty = false := by
      cases xs with
      | nil => cases ha
      | cons x l => rfl
    rw [calculate_trends, if_neg (by rw [hne]; exact Bool.false_ne_true), hs,
      List.length_cons, List.range_succ_eq_map, List.map_cons, List.map_map]
    have hrest : ∀ p ∈ (List.range t.length).map
        ((fun i => (((a :: t).getD i defaultActivity).date, trendEntry (a :: t) period i))
          ∘ Nat.succ),
        p.1 ≠ (((a :: t).getD 0 defaultActivity).date,
               trendEntry (a :: t) period 0).1 := by
      intro p hp
      obtain ⟨i, hi, rfl⟩ := List.mem_map.mp hp
      have hil : i < t.length := List.mem_range.mp hi
      show (t.getD i defaultActivity).date ≠ a.date
      exact ht (t.getD i defaultActivity)
        (by rw [List.getD_eq_getElem t defaultActivity hil]; exact List.getElem_mem hil)
    exact (trendLookup_head _ _ hrest).trans
      (congrArg some (trendEntry_at_start (a :: t) period))
  · intro pr hpr
    rw [calculate_trends] at hpr
    by_cases hemp : xs.isEmpty = true
    · rw [if_pos hemp] at hpr
      cases hpr
    · rw [if_neg hemp] at hpr
      obtain ⟨i, hi, hpe⟩ := List.mem_map.mp hpr
      refine ⟨i, List.mem_range.mp hi, ?_, ?_, ?_⟩
      · rw [← hpe]
        rfl
      · rw [← hpe]
        rfl
      · rw [← hpe]
        by_cases hpos : 0 < windowAvg (sortByDate xs) period i
        · rw [if_pos hpos]
          show pyRound2 (if 0 < windowAvg (sortByDate xs) period i then _ else 0) = _
          rw [if_pos hpos]
        · rw [if_neg hpos]
          show pyRound2 (if 0 < windowAvg (sortByDate xs) period i then _ else 0) = 0
          rw [if_neg hpos]
          exact pyRound2_zero

theorem calculate_trends_spec_witness :
    trendLookup (calculate_trends [⟨1, 2, 30, []⟩, ⟨2, 3, 60, []⟩] 7) 1
      = some ⟨30, 0, 0, 2⟩ :=
  (calculate_trends_spec [⟨1, 2, 30, []⟩, ⟨2, 3, 60, []⟩] 7 (by decide)).1
    ⟨1, 2, 30, []⟩ (by decide) (by decide)

/-! ## Claim C1: debounce semantics -/

lemma debounceFires_close (D : ℚ) :
    ∀ (ts : List ℚ) (t : ℚ), List.Chain (fun x y => x ≤ y ∧ y < x + D) t ts →
      debounceFires D (some (t + D)) ts = 1 := by
  intro ts
  induction ts with
  | nil => intro t _; rfl
  | cons u rest ih =>
    intro t hch
    rcases hch with _ | ⟨⟨hle, hlt⟩, hch⟩
    show (if t + D < u then 1 else 0) + debounceFires D (some (u + D)) rest = 1
    rw [if_neg (not_lt.mpr (le_of_lt hlt)), ih u hch]

/-- C1: for a burst of modification events of one watched path each
arriving within less than the quiet period D of its predecessor, the
callback fires exactly once, after the last event (so at most once; in
particular a continuously-modified file never fires while events keep
arriving within the quiet period, because every fresh event cancels and
replaces the pending timer); and for two events separated by more than
the quiet period the callback fires exactly twice. -/
theorem debounce_spec (D : ℚ) :
    (∀ (t : ℚ) (ts : List ℚ), List.Chain (fun x y => x ≤ y ∧ y < x + D) t ts →
        callbackCount D (t :: ts) = 1) ∧
    (∀ t0 t1 t2 t3 t4 : ℚ,
        t0 ≤ t1 → t1 < t0 + D → t1 ≤ t2 → t2 < t1 + D → t2 ≤ t3 → t3 < t2 + D →
        t3 ≤ t4 → t4 < t3 + D →
        callbackCount D [t0, t1, t2, t3, t4] ≤ 1) ∧
    (∀ t0 t1 : ℚ, t0 + D < t1 → callbackCount D [t0, t1] = 2) := by
  have hburst : ∀ (t : ℚ) (ts : List ℚ), List.Chain (fun x y => x ≤ y ∧ y < x + D) t ts →
      callbackCount D (t :: ts) = 1 := by
    intro t ts hch
    unfold callbackCount debounceFires
    rw [debounceFires_close D ts t hch]
  refine ⟨hburst, ?_, ?_⟩
  · intro t0 t1 t2 t3 t4 h1 h2 h3 h4 h5 h6 h7 h8
    have := hburst t0 [t1, t2, t3, t4]
      (List.Chain.cons ⟨h1, h2⟩ (List.Chain.cons ⟨h3, h4⟩
        (List.Chain.cons ⟨h5, h6⟩ (List.Chain.cons ⟨h7, h8⟩ List.Chain.nil))))
    omega
  · intro t0 t1 hgap
    show 0 + ((if t0 + D < t1 then 1 else 0) + 1) = 2
    rw [if_pos hgap]

theorem debounce_spec_witness :
    callbackCount 1 [0, 1/4, 1/2, 3/4, 1] ≤ 1 ∧ callbackCount 1 [0, 3] = 2 :=
  ⟨(debounce_spec 1).2.1 0 (1/4) (1/2) (3/4) 1 (by norm_num) (by norm_num) (by norm_num)
      (by norm_num) (by norm_num) (by norm_num) (by norm_num) (by norm_num),
   (debounce_spec 1).2.2 0 3 (by norm_num)⟩

theorem normalize_model_name_spec_witness :
    (normalize_model_name "Claude Opus 4.5" = pyReplaceChar (preDot "Claude Opus 4.5") '.' '-' ∧
      ∀ c ∈ (normalize_model_name "Claude Opus 4.5").toList, c ≠ '.' ∧ c ≠ ' ' ∧ c ≠ '_') ∧
    normalize_model_name "claude-3-5-sonnet-20241022" = "claude-sonnet-4.5" :=
  ⟨(normalize_model_name_spec "Claude Opus 4.5").1 (Or.inl (by decide)),
   (normalize_model_name_spec "claude-3-5-sonnet-20241022").2.2.1 (by decide) (by decide) (by decide)⟩

end TokenMonitor
